import Mathlib

/-!
Verification of the gridlocked sliding-block puzzle engine.

This file is a shallow embedding of the core of the repository:
`src/core/GameEngine.ts` (occupancy, move legality, slide range, move
application, win detection, replay validation) and
`src/data/puzzles/index.ts` (exit-direction deduction and the 90 degree
clockwise rotation transform over raw puzzle definitions).

JavaScript numbers holding grid coordinates are modelled as `Int`
(all values manipulated by the engine are integers); vehicle lengths,
which only drive `for`-loops of the form `for (let i = 0; i < length; i++)`,
are modelled as `Nat`.  The `Map<string, Position>` of current vehicle
positions is modelled as a total function `String → Position` updated
pointwise, which has exactly the observable get/set behaviour of the map
for the keys the engine ever reads.  Thrown exceptions are modelled with
`Except`, and the observer fan-out of `notify()` is modelled by a counter
of emitted notifications.
-/

namespace Gridlocked

/-- Orientation of a vehicle (`src/types/puzzle.ts`). -/
inductive Orientation where
  | horizontal
  | vertical
deriving DecidableEq, Repr

/-- Exit direction (`src/types/puzzle.ts`). -/
inductive Direction where
  | up
  | down
  | left
  | right
deriving DecidableEq, Repr

/-- Vehicle display kind (`src/types/puzzle.ts`). -/
inductive VehicleType where
  | car
  | truck
deriving DecidableEq, Repr

/-- Obstacle kind (`src/types/puzzle.ts`). -/
inductive ObstacleType where
  | tree
  | sidewalk
  | barrier
deriving DecidableEq, Repr

/-- Puzzle difficulty tag (`src/types/puzzle.ts`). -/
inductive Difficulty where
  | tutorial
  | easy
  | medium
  | hard
deriving DecidableEq, Repr

/-- Vehicle color (`src/types/puzzle.ts`). -/
inductive VehicleColor where
  | blue
  | green
  | yellow
  | purple
deriving DecidableEq, Repr

/-- A grid cell: 0-indexed row and column (`src/types/puzzle.ts`). -/
@[ext]
structure Position where
  row : Int
  col : Int
deriving DecidableEq, Repr

/-- Grid dimensions (`src/types/puzzle.ts`). -/
@[ext]
structure GridSize where
  rows : Int
  cols : Int
deriving DecidableEq, Repr

/-- Exit cell together with its deduced direction (`src/types/puzzle.ts`). -/
@[ext]
structure Exit where
  row : Int
  col : Int
  direction : Direction
deriving DecidableEq, Repr

/-- A vehicle: anchor cell, length, fixed orientation (`src/types/puzzle.ts`). -/
@[ext]
structure Vehicle where
  id : String
  row : Int
  col : Int
  length : Nat
  orientation : Orientation
  type : Option VehicleType := none
  color : Option VehicleColor := none
deriving DecidableEq, Repr

/-- An immovable single-cell obstacle (`src/types/puzzle.ts`). -/
@[ext]
structure Obstacle where
  id : String
  row : Int
  col : Int
  type : ObstacleType
deriving DecidableEq, Repr

/-- One recorded move of a validation trace (`src/types/puzzle.ts`). -/
@[ext]
structure PuzzleMove where
  vehicleId : String
  row : Int
  col : Int
deriving DecidableEq, Repr

/-- Result of replay validation (`src/types/puzzle.ts`). -/
@[ext]
structure ValidationResult where
  isValid : Bool
  par : Option Nat := none
  error : Option String := none
deriving DecidableEq, Repr

/-- A hydrated puzzle template (`src/types/puzzle.ts`).  The optional
`validationResult` cache field is irrelevant to the engine and omitted. -/
@[ext]
structure Puzzle where
  id : String
  name : String
  difficulty : Difficulty
  gridSize : GridSize
  exit : Exit
  playerCar : Vehicle
  vehicles : List Vehicle
  obstacles : List Obstacle
  validation : Option (List PuzzleMove) := none
deriving DecidableEq, Repr

/-- Mutable per-session game state (`src/types/game.ts`): template,
current position of each vehicle keyed by id, move counter, completion
flag.  The position map is a total function; `initState` writes every
key the engine ever reads. -/
structure GameState where
  puzzle : Puzzle
  vehiclePositions : String → Position
  moveCount : Nat
  isComplete : Bool

/-- The engine object (`src/core/GameEngine.ts`): its state, the move
history kept alongside, and a count of observer notifications emitted
by `notify()` (each call to `notify` notifies every subscribed
listener synchronously). -/
structure Engine where
  state : GameState
  moveHistory : List PuzzleMove
  notifications : Nat

/-- Pointwise update of the position map, the model of `Map.set`. -/
def setPos (f : String → Position) (id : String) (p : Position) : String → Position :=
  fun k => if k = id then p else f k

/-- Model of `GameEngine.initState`: seed the position map with the
player car's template anchor and then each vehicle's template anchor
(later writes win, as with `Map.set`). -/
def initState (puzzle : Puzzle) : GameState :=
  let base : String → Position := fun _ => ⟨0, 0⟩
  let withPlayer := setPos base puzzle.playerCar.id ⟨puzzle.playerCar.row, puzzle.playerCar.col⟩
  let vehiclePositions := puzzle.vehicles.foldl (fun f v => setPos f v.id ⟨v.row, v.col⟩) withPlayer
  { puzzle := puzzle, vehiclePositions := vehiclePositions, moveCount := 0, isComplete := false }

/-- Model of the `GameEngine` constructor. -/
def mkEngine (puzzle : Puzzle) : Engine :=
  { state := initState puzzle, moveHistory := [], notifications := 0 }

/-- Model of `GameEngine.getVehicle`: the player car if the id matches,
else the first vehicle in the list with that id. -/
def getVehicle (s : GameState) (id : String) : Option Vehicle :=
  if id = s.puzzle.playerCar.id then some s.puzzle.playerCar
  else s.puzzle.vehicles.find? (fun v => v.id = id)

/-- The cells occupied by a vehicle anchored at `pos`: the loop body of
`addVehicleCells` in `GameEngine.getOccupiedCells`, also the cell
formula used by the bounds and collision loops of `canMove`. -/
def vehicleCells (v : Vehicle) (pos : Position) : List Position :=
  (List.range v.length).map (fun i : Nat =>
    { row := if v.orientation = Orientation.vertical then pos.row + (i : Int) else pos.row,
      col := if v.orientation = Orientation.horizontal then pos.col + (i : Int) else pos.col })

/-- All entities of a puzzle that occupy `length`-many cells: the player
car followed by the other vehicles, in the order `getOccupiedCells`
visits them. -/
def allVehicles (p : Puzzle) : List Vehicle :=
  p.playerCar :: p.vehicles

/-- The cells a vehicle currently occupies in state `s`. -/
def entityCells (s : GameState) (v : Vehicle) : List Position :=
  vehicleCells v (s.vehiclePositions v.id)

/-- The single cells of all obstacles of a puzzle. -/
def obstacleCellsOf (p : Puzzle) : List Position :=
  p.obstacles.map (fun o => ⟨o.row, o.col⟩)

/-- Membership of a cell in a cell list (the model of `Map.has` on the
occupancy map keyed by the string `"row,col"`, which is injective on
integer pairs). -/
def hasCell (l : List Position) (c : Position) : Bool :=
  l.any (fun d => d = c)

/-- Model of `GameEngine.getOccupiedCells(excludeId)`: the cells of every
vehicle whose id differs from `excludeId` (the player is excluded exactly
when `excludeId` equals its id), followed by all obstacle cells, which
are never excluded. -/
def occupiedCellsList (s : GameState) (excludeId : String) : List Position :=
  (((allVehicles s.puzzle).filter (fun v => v.id ≠ excludeId)).map
      (fun v => entityCells s v)).flatten
    ++ obstacleCellsOf s.puzzle

/-- A cell lies within the grid: the complement of the rejection test
`r < 0 || r >= rows || c < 0 || c >= cols` in `canMove`. -/
def inBounds (g : GridSize) (p : Position) : Bool :=
  decide (0 ≤ p.row ∧ p.row < g.rows ∧ 0 ≤ p.col ∧ p.col < g.cols)

/-- Model of `GameEngine.canMove`: the vehicle must exist, the target may
only change the coordinate along the vehicle's orientation axis, every
target cell must be in bounds, and no target cell may be occupied by
another entity or an obstacle. -/
def canMove (s : GameState) (vehicleId : String) (newPos : Position) : Bool :=
  match getVehicle s vehicleId with
  | none => false
  | some vehicle =>
    let currentPos := s.vehiclePositions vehicleId
    if vehicle.orientation = Orientation.horizontal ∧ newPos.row ≠ currentPos.row then false
    else if vehicle.orientation = Orientation.vertical ∧ newPos.col ≠ currentPos.col then false
    else if ¬ ((vehicleCells vehicle newPos).all (fun c => inBounds s.puzzle.gridSize c)) then false
    else if (vehicleCells vehicle newPos).any (fun c => hasCell (occupiedCellsList s vehicleId) c) then false
    else true

/-- Model of `GameEngine.checkWin`: the leading edge of the player car
must coincide with the exit cell, by case on orientation and exit
direction; every other combination yields `false`. -/
def checkWin (s : GameState) : Bool :=
  let ex := s.puzzle.exit
  let playerCar := s.puzzle.playerCar
  let pos := s.vehiclePositions playerCar.id
  match playerCar.orientation with
  | Orientation.horizontal =>
    match ex.direction with
    | Direction.right => decide (pos.row = ex.row ∧ pos.col + (playerCar.length : Int) - 1 = ex.col)
    | Direction.left => decide (pos.row = ex.row ∧ pos.col = ex.col)
    | _ => false
  | Orientation.vertical =>
    match ex.direction with
    | Direction.down => decide (pos.col = ex.col ∧ pos.row + (playerCar.length : Int) - 1 = ex.row)
    | Direction.up => decide (pos.col = ex.col ∧ pos.row = ex.row)
    | _ => false

/-- Model of `GameEngine.moveVehicle`: reject (with no mutation and no
notification) when `canMove` fails or the target equals the current
position; otherwise update the position, increment the move counter,
append to the history, set the completion flag when `checkWin` holds on
the updated positions, and notify observers once. -/
def moveVehicle (e : Engine) (vehicleId : String) (newPos : Position) : Engine × Bool :=
  if ¬ (canMove e.state vehicleId newPos = true) then (e, false)
  else
    let currentPos := e.state.vehiclePositions vehicleId
    if currentPos.row = newPos.row ∧ currentPos.col = newPos.col then (e, false)
    else
      let s1 : GameState :=
        { e.state with
          vehiclePositions := setPos e.state.vehiclePositions vehicleId newPos,
          moveCount := e.state.moveCount + 1 }
      let s2 : GameState := if checkWin s1 then { s1 with isComplete := true } else s1
      ({ state := s2,
         moveHistory := e.moveHistory ++ [⟨vehicleId, newPos.row, newPos.col⟩],
         notifications := e.notifications + 1 }, true)

/-- Model of `GameEngine.reset`: rebuild the state from the template,
clear the history and notify observers. -/
def reset (e : Engine) : Engine :=
  { state := initState e.state.puzzle, moveHistory := [], notifications := e.notifications + 1 }

/-- The backward while-loop of `GameEngine.getSlideRange`: while the
anchor coordinate is positive and `canMove` accepts the next cell
backward, decrement it.  The loop decreases `mn` by one each iteration
and stops at 0, so any fuel of at least `mn.toNat` makes this function
agree with the source loop; `getSlideRange` passes exactly that. -/
def slideBackLoop (s : GameState) (vehicleId : String) (isH : Bool) (cur : Position) :
    Nat → Int → Int
  | 0, mn => mn
  | Nat.succ fuel, mn =>
    if 0 < mn ∧ canMove s vehicleId
        (if isH then ⟨cur.row, mn - 1⟩ else ⟨mn - 1, cur.col⟩) = true then
      slideBackLoop s vehicleId isH cur fuel (mn - 1)
    else mn

/-- The forward while-loop of `GameEngine.getSlideRange`: while the far
end of the vehicle stays inside the grid and `canMove` accepts the next
cell forward, increment the anchor coordinate.  The loop increases `mx`
by one each iteration while `mx + length < limit`, so any fuel of at
least `(limit - length - mx).toNat` makes this function agree with the
source loop; `getSlideRange` passes exactly that. -/
def slideFwdLoop (s : GameState) (vehicleId : String) (isH : Bool) (cur : Position)
    (length : Nat) (limit : Int) : Nat → Int → Int
  | 0, mx => mx
  | Nat.succ fuel, mx =>
    if mx + (length : Int) < limit ∧ canMove s vehicleId
        (if isH then ⟨cur.row, mx + 1⟩ else ⟨mx + 1, cur.col⟩) = true then
      slideFwdLoop s vehicleId isH cur length limit fuel (mx + 1)
    else mx

/-- Model of `GameEngine.getSlideRange`.  The source dereferences the
vehicle with a non-null assertion, so the `none` branch is never reached
for an existing vehicle; it returns a dummy pair here. -/
def getSlideRange (s : GameState) (vehicleId : String) : Int × Int :=
  match getVehicle s vehicleId with
  | none => (0, 0)
  | some vehicle =>
    let currentPos := s.vehiclePositions vehicleId
    let isH : Bool := vehicle.orientation = Orientation.horizontal
    let currentVal := if isH then currentPos.col else currentPos.row
    let mn := slideBackLoop s vehicleId isH currentPos currentVal.toNat currentVal
    let limit := if isH then s.puzzle.gridSize.cols else s.puzzle.gridSize.rows
    let mx := slideFwdLoop s vehicleId isH currentPos vehicle.length limit
      (limit - currentVal - (vehicle.length : Int)).toNat currentVal
    (mn, mx)

/-- The replay for-loop of `GameEngine.validatePuzzle`: apply each trace
move in order starting at 0-based index `i`, stopping at the first move
`moveVehicle` rejects with the 1-based step index in the error. -/
def replayFrom (e : Engine) (i : Nat) : List PuzzleMove → Except String Engine
  | [] => Except.ok e
  | m :: rest =>
    let r := moveVehicle e m.vehicleId ⟨m.row, m.col⟩
    if r.2 then replayFrom r.1 (i + 1) rest
    else Except.error ("Invalid move at step " ++ toString (i + 1))

/-- Model of the static `GameEngine.validatePuzzle`: reject an absent or
empty trace, replay the trace on a fresh engine failing fast, reject
when the final state is not complete, and otherwise report par equal to
the trace length. -/
def validatePuzzle (p : Puzzle) : ValidationResult :=
  match p.validation with
  | none => { isValid := false, error := some ("No validation provided") }
  | some ms =>
    if ms.length = 0 then { isValid := false, error := some ("No validation provided") }
    else
      match replayFrom (mkEngine p) 0 ms with
      | Except.error msg => { isValid := false, error := some msg }
      | Except.ok e =>
        if e.state.isComplete then { isValid := true, par := some ms.length }
        else { isValid := false, error := some ("Validation does not reach win state") }

/-- A single engine operation a caller can perform on a live engine. -/
inductive EngineOp where
  | move (vehicleId : String) (target : Position)
  | reset

/-- Apply one operation to an engine (a failed move leaves it unchanged). -/
def applyOp (e : Engine) : EngineOp → Engine
  | EngineOp.move id target => (moveVehicle e id target).1
  | EngineOp.reset => reset e

/-- Apply a sequence of `moveVehicle` and `reset` calls in order. -/
def applyOps (e : Engine) (ops : List EngineOp) : Engine :=
  ops.foldl applyOp e

/-- Model of `deduceExitDirection` in `src/data/puzzles/index.ts`,
including the thrown error for an exit that falls through every test
(hydration calls this first, so its error aborts hydration). -/
def deduceExitDirection (exit : Position) (gridSize : GridSize) : Except String Direction :=
  if gridSize.cols - 1 ≤ exit.col then Except.ok Direction.right
  else if exit.col ≤ 0 then Except.ok Direction.left
  else if gridSize.rows - 1 ≤ exit.row then Except.ok Direction.down
  else if exit.row ≤ 0 then Except.ok Direction.up
  else Except.error ("Exit at (" ++ toString exit.row ++ "," ++ toString exit.col
    ++ ") is not on the grid periphery")

/-- The geometric data of a vehicle as passed to `rotateVehicle` in
`src/data/puzzles/index.ts`; also the shape of `RawPuzzle.playerCar`. -/
@[ext]
structure VehicleGeom where
  row : Int
  col : Int
  length : Nat
  orientation : Orientation
deriving DecidableEq, Repr

/-- A raw vehicle of the compact JSON format (`src/types/puzzle.ts`). -/
@[ext]
structure RawVehicle where
  row : Int
  col : Int
  length : Nat
  orientation : Orientation
  type : Option VehicleType := none
  color : Option VehicleColor := none
deriving DecidableEq, Repr

/-- A raw obstacle of the compact JSON format (`src/types/puzzle.ts`). -/
@[ext]
structure RawObstacle where
  row : Int
  col : Int
  type : ObstacleType
deriving DecidableEq, Repr

/-- A raw puzzle definition of the compact JSON format
(`src/types/puzzle.ts`), the input and output type of
`rotatePuzzle90CW`. -/
@[ext]
structure RawPuzzle where
  name : String
  difficulty : Difficulty
  gridSize : GridSize
  exit : Position
  playerCar : VehicleGeom
  vehicles : List RawVehicle
  obstacles : List RawObstacle
  validation : Option (List PuzzleMove) := none
deriving DecidableEq, Repr

/-- The cell map of the rotation transform: `(r, c) ↦ (c, R - 1 - r)`
where `R` is the row count of the grid being rotated
(`rotatePos` in `src/data/puzzles/index.ts`). -/
def rotatePos (R : Int) (r c : Int) : Position :=
  ⟨c, R - 1 - r⟩

/-- Model of the inner `rotateVehicle` of `rotatePuzzle90CW`: a
horizontal vehicle becomes vertical anchored at the image of its anchor;
a vertical vehicle becomes horizontal anchored at the image of its
bottom cell `(row + length - 1, col)`. -/
def rotateVehicle (R : Int) (v : VehicleGeom) : VehicleGeom :=
  match v.orientation with
  | Orientation.horizontal =>
    let p := rotatePos R v.row v.col
    ⟨p.row, p.col, v.length, Orientation.vertical⟩
  | Orientation.vertical =>
    let bottomRow := v.row + (v.length : Int) - 1
    let p := rotatePos R bottomRow v.col
    ⟨p.row, p.col, v.length, Orientation.horizontal⟩

/-- Whether the character list `p` is an initial segment of `l`. -/
def leadsWith : List Char → List Char → Bool
  | [], _ => true
  | _ :: _, [] => false
  | p :: ps, c :: cs => p = c && leadsWith ps cs

/-- Remove the first occurrence of the pattern from the character list:
the model of the JavaScript `String.replace(pattern, "")` with a string
pattern, which replaces only the first occurrence. -/
def removeFirstOcc (pat : List Char) : List Char → List Char
  | [] => []
  | c :: rest =>
    if leadsWith pat (c :: rest) then (c :: rest).drop pat.length
    else c :: removeFirstOcc pat rest

/-- Numeric value of a list of decimal digit characters. -/
def digitsVal (cs : List Char) : Nat :=
  cs.foldl (fun a c => a * 10 + (c.toNat - 48)) 0

/-- Model of the JavaScript `parseInt` with no radix argument on the
decimal strings arising here: skip leading whitespace, read an optional
sign and then the longest prefix of decimal digits; `none` models `NaN`
when no digit is found.  (The hexadecimal `0x` auto-detection of
`parseInt` is not modelled; the digits parsed here come from entity ids
of the form `vehicle-<index>`.) -/
def jsParseInt (s : List Char) : Option Int :=
  let cs := s.dropWhile (fun c => c.isWhitespace)
  let signed : Int × List Char :=
    match cs with
    | '-' :: r => (-1, r)
    | '+' :: r => (1, r)
    | _ => (1, cs)
  let ds := signed.2.takeWhile (fun c => c.isDigit)
  if ds.isEmpty then none else some (signed.1 * (digitsVal ds : Int))

/-- The entity lookup of the validation-trace branch of
`rotatePuzzle90CW`: the player car's geometry for id `player`, else the
vehicle indexed by `parseInt(id.replace("vehicle-", ""))`, or `none`
when the index is `NaN`, negative or out of range (the source then falls
back to orientation `horizontal` and length 2). -/
def moveEntityGeom (raw : RawPuzzle) (vehicleId : String) : Option (Orientation × Nat) :=
  if vehicleId = "player" then some (raw.playerCar.orientation, raw.playerCar.length)
  else
    match jsParseInt (removeFirstOcc ("vehicle-".data) vehicleId.data) with
    | none => none
    | some i =>
      if i < 0 then none
      else (raw.vehicles.get? i.toNat).map (fun v => (v.orientation, v.length))

/-- The per-waypoint transform of the validation-trace branch of
`rotatePuzzle90CW`: rotate the waypoint's target anchor using the
entity's original orientation and length (defaults `horizontal` and 2
when the id resolves to no vehicle). -/
def rotateMove (raw : RawPuzzle) (R : Int) (m : PuzzleMove) : PuzzleMove :=
  let info := (moveEntityGeom raw m.vehicleId).getD (Orientation.horizontal, 2)
  let rv := rotateVehicle R ⟨m.row, m.col, info.2, info.1⟩
  ⟨m.vehicleId, rv.row, rv.col⟩

/-- The per-vehicle mapping of `rotatePuzzle90CW`: rotate the vehicle's
geometry and carry its color and type over unchanged. -/
def rotateRawVehicle (R : Int) (v : RawVehicle) : RawVehicle :=
  let g := rotateVehicle R ⟨v.row, v.col, v.length, v.orientation⟩
  { row := g.row, col := g.col, length := g.length, orientation := g.orientation,
    type := v.type, color := v.color }

/-- The per-obstacle mapping of `rotatePuzzle90CW`: rotate the cell and
keep the type. -/
def rotateRawObstacle (R : Int) (o : RawObstacle) : RawObstacle :=
  let p := rotatePos R o.row o.col
  { row := p.row, col := p.col, type := o.type }

/-- Model of `rotatePuzzle90CW` in `src/data/puzzles/index.ts`: swap the
grid dimensions, rotate the exit cell, the player car, every vehicle
(keeping color and type) and every obstacle, and re-express every
validation waypoint with the entity's original orientation and length. -/
def rotatePuzzle90CW (raw : RawPuzzle) : RawPuzzle :=
  let R := raw.gridSize.rows
  { name := raw.name,
    difficulty := raw.difficulty,
    gridSize := ⟨raw.gridSize.cols, R⟩,
    exit := rotatePos R raw.exit.row raw.exit.col,
    playerCar := rotateVehicle R raw.playerCar,
    vehicles := raw.vehicles.map (rotateRawVehicle R),
    obstacles := raw.obstacles.map (rotateRawObstacle R),
    validation := raw.validation.map (fun ms => ms.map (rotateMove raw R)) }

/-- The cells a raw vehicle geometry occupies: `length` cells extending
from the anchor along the orientation axis (the same formula as
`vehicleCells`, over the rotation transform's geometry type). -/
def rawVehicleCells (g : VehicleGeom) : List Position :=
  (List.range g.length).map (fun i : Nat =>
    { row := if g.orientation = Orientation.vertical then g.row + (i : Int) else g.row,
      col := if g.orientation = Orientation.horizontal then g.col + (i : Int) else g.col })

/-- Concrete raw puzzle used by witnesses of the rotation claims. -/
def sampleRaw : RawPuzzle :=
  { name := "r", difficulty := Difficulty.hard, gridSize := ⟨6, 5⟩, exit := ⟨2, 4⟩,
    playerCar := ⟨2, 0, 2, Orientation.horizontal⟩,
    vehicles := [⟨0, 2, 3, Orientation.vertical, some VehicleType.truck,
      some VehicleColor.blue⟩],
    obstacles := [⟨3, 3, ObstacleType.tree⟩],
    validation := some [⟨"vehicle-0", 3, 2⟩, ⟨"player", 2, 3⟩] }

/-- The two cell lists have no common cell. -/
def cellsDisjointB (xs ys : List Position) : Bool :=
  xs.all (fun c => !(hasCell ys c))

/-- `r` holds for every pair of elements taken at distinct positions of
the list (executable counterpart of `List.Pairwise`). -/
def pairwiseB {α : Type} (r : α → α → Bool) : List α → Bool
  | [] => true
  | x :: xs => xs.all (r x) && pairwiseB r xs

/-- The placement invariants of the specification, evaluated on a game
state: every vehicle's occupied cells lie within the grid, the cell sets
of any two distinct entities in the player-then-vehicles list are
disjoint, and no vehicle cell coincides with an obstacle cell. -/
def invariantB (s : GameState) : Bool :=
  ((allVehicles s.puzzle).all (fun v =>
      (entityCells s v).all (fun c => inBounds s.puzzle.gridSize c)))
    && pairwiseB (fun v w => cellsDisjointB (entityCells s v) (entityCells s w))
        (allVehicles s.puzzle)
    && ((allVehicles s.puzzle).all (fun v =>
        cellsDisjointB (entityCells s v) (obstacleCellsOf s.puzzle)))

/-- Every vehicle of the template has length at least 1, as the data
model of the specification requires of a puzzle template. -/
def lengthsOkB (p : Puzzle) : Bool :=
  (allVehicles p).all (fun v => decide (1 ≤ v.length))

/-- Modelled from the spec: the win predicate as section 4.5 states it,
case by case on the player's orientation and the exit's direction, with
every other combination false.  Defined from the specification's words
to be compared against `checkWin`. -/
def winPredicateSpec (s : GameState) : Prop :=
  match s.puzzle.playerCar.orientation, s.puzzle.exit.direction with
  | Orientation.horizontal, Direction.right =>
    (s.vehiclePositions s.puzzle.playerCar.id).row = s.puzzle.exit.row ∧
    (s.vehiclePositions s.puzzle.playerCar.id).col + (s.puzzle.playerCar.length : Int) - 1
      = s.puzzle.exit.col
  | Orientation.horizontal, Direction.left =>
    (s.vehiclePositions s.puzzle.playerCar.id).row = s.puzzle.exit.row ∧
    (s.vehiclePositions s.puzzle.playerCar.id).col = s.puzzle.exit.col
  | Orientation.vertical, Direction.down =>
    (s.vehiclePositions s.puzzle.playerCar.id).col = s.puzzle.exit.col ∧
    (s.vehiclePositions s.puzzle.playerCar.id).row + (s.puzzle.playerCar.length : Int) - 1
      = s.puzzle.exit.row
  | Orientation.vertical, Direction.up =>
    (s.vehiclePositions s.puzzle.playerCar.id).col = s.puzzle.exit.col ∧
    (s.vehiclePositions s.puzzle.playerCar.id).row = s.puzzle.exit.row
  | _, _ => False

/-- Modelled from the spec: the exit cell lies on the grid periphery,
that is, inside the grid and on one of its four edges (section 3). -/
def onPeriphery (exit : Position) (g : GridSize) : Bool :=
  decide ((0 ≤ exit.row ∧ exit.row < g.rows ∧ 0 ≤ exit.col ∧ exit.col < g.cols) ∧
    (exit.row = 0 ∨ exit.row = g.rows - 1 ∨ exit.col = 0 ∨ exit.col = g.cols - 1))

/-- Modelled from the spec: the deduction rule of section 3 — column at
the last column gives `right`, column 0 gives `left`, else row at the
last row gives `down`, row 0 gives `up`. -/
def specExitDirection (exit : Position) (g : GridSize) : Direction :=
  if exit.col = g.cols - 1 then Direction.right
  else if exit.col = 0 then Direction.left
  else if exit.row = g.rows - 1 then Direction.down
  else Direction.up

/-- Apply a list of trace moves in order through `moveVehicle`,
returning the resulting engine, or `none` as soon as one is rejected
(the observable evolution that `validatePuzzle`'s replay loop drives). -/
def runMoves (e : Engine) : List PuzzleMove → Option Engine
  | [] => some e
  | m :: rest =>
    if (moveVehicle e m.vehicleId ⟨m.row, m.col⟩).2 then
      runMoves (moveVehicle e m.vehicleId ⟨m.row, m.col⟩).1 rest
    else none

/-- Apply a list of `moveVehicle` calls in order (a rejected call leaves
the engine unchanged, as in the source). -/
def applyMoveList (e : Engine) (l : List (String × Position)) : Engine :=
  l.foldl (fun e m => (moveVehicle e m.1 m.2).1) e

/-- The anchor coordinate of a vehicle along its own sliding axis. -/
def alongCoord (v : Vehicle) (p : Position) : Int :=
  if v.orientation = Orientation.horizontal then p.col else p.row

/-- The anchor obtained from `p` by setting the along-axis coordinate of
vehicle `v` to `k` (the probe positions of `getSlideRange`). -/
def anchorAt (v : Vehicle) (p : Position) (k : Int) : Position :=
  if v.orientation = Orientation.horizontal then ⟨p.row, k⟩ else ⟨k, p.col⟩

/-- Flip of orientation performed by one rotation. -/
def flipOri : Orientation → Orientation
  | Orientation.horizontal => Orientation.vertical
  | Orientation.vertical => Orientation.horizontal

/-- Concrete template used by witnesses: the 3x3 scenario of the
specification (section 8) — player of length 2 at (1,0), exit (1,2)
to the right, no other entities, one-move validation trace. -/
def samplePuzzle : Puzzle :=
  { id := "p0", name := "p0", difficulty := Difficulty.easy,
    gridSize := ⟨3, 3⟩, exit := ⟨1, 2, Direction.right⟩,
    playerCar := { id := "player", row := 1, col := 0, length := 2,
                   orientation := Orientation.horizontal },
    vehicles := [], obstacles := [],
    validation := some [⟨"player", 1, 1⟩] }

/-- The sample template with its validation trace removed. -/
def samplePuzzleNoTrace : Puzzle :=
  { samplePuzzle with validation := none }

/-- The sample engine after the winning move. -/
def sampleWinEngine : Engine :=
  (moveVehicle (mkEngine samplePuzzle) "player" ⟨1, 1⟩).1

/-! ### Basic lemmas about the executable predicates -/

lemma hasCell_iff (l : List Position) (c : Position) : hasCell l c = true ↔ c ∈ l := by
  simp [hasCell]

lemma hasCell_eq_false (l : List Position) (c : Position) :
    hasCell l c = false ↔ c ∉ l := by
  rw [Bool.eq_false_iff]
  exact not_congr (hasCell_iff l c)

lemma cellsDisjointB_iff (xs ys : List Position) :
    cellsDisjointB xs ys = true ↔ ∀ c ∈ xs, c ∉ ys := by
  simp [cellsDisjointB, List.all_eq_true, hasCell_eq_false]

lemma pairwiseB_iff {α : Type} (r : α → α → Bool) (l : List α) :
    pairwiseB r l = true ↔ List.Pairwise (fun a b => r a b = true) l := by
  induction l with
  | nil => simp [pairwiseB]
  | cons x xs ih => simp [pairwiseB, List.all_eq_true, ih, List.pairwise_cons]

lemma getVehicle_mem {s : GameState} {id : String} {v : Vehicle}
    (h : getVehicle s id = some v) : v ∈ allVehicles s.puzzle ∧ v.id = id := by
  unfold getVehicle at h
  split at h
  · next heq =>
    obtain rfl : s.puzzle.playerCar = v := by injection h
    exact ⟨List.mem_cons_self _ _, heq.symm⟩
  · have hmem := List.mem_of_find?_eq_some h
    have hpred := List.find?_some h
    simp at hpred
    exact ⟨List.mem_cons_of_mem _ hmem, hpred⟩

lemma mem_occupiedCellsList {s : GameState} {ex : String} {c : Position} :
    c ∈ occupiedCellsList s ex ↔
      (∃ w ∈ allVehicles s.puzzle, w.id ≠ ex ∧ c ∈ entityCells s w) ∨
        c ∈ obstacleCellsOf s.puzzle := by
  simp only [occupiedCellsList, List.mem_append, List.mem_flatten, List.mem_map,
    List.mem_filter]
  constructor
  · rintro (⟨l, ⟨w, ⟨hw, hid⟩, rfl⟩, hc⟩ | h)
    · exact Or.inl ⟨w, hw, by simpa using hid, hc⟩
    · exact Or.inr h
  · rintro (⟨w, hw, hid, hc⟩ | h)
    · exact Or.inl ⟨entityCells s w, ⟨w, ⟨hw, by simpa using hid⟩, rfl⟩, hc⟩
    · exact Or.inr h

/-! ### Reduction lemmas for the three branches of `moveVehicle` -/

lemma moveVehicle_of_not_canMove {e : Engine} {id : String} {np : Position}
    (h : canMove e.state id np = false) : moveVehicle e id np = (e, false) := by
  simp [moveVehicle, h]

lemma moveVehicle_of_noop {e : Engine} {id : String} {np : Position}
    (h : np = e.state.vehiclePositions id) : moveVehicle e id np = (e, false) := by
  subst h
  simp [moveVehicle]

lemma moveVehicle_of_success {e : Engine} {id : String} {np : Position}
    (hcm : canMove e.state id np = true) (hnp : ¬ np = e.state.vehiclePositions id) :
    moveVehicle e id np =
      ({ state :=
           (if checkWin { e.state with
                vehiclePositions := setPos e.state.vehiclePositions id np,
                moveCount := e.state.moveCount + 1 } then
              { e.state with
                vehiclePositions := setPos e.state.vehiclePositions id np,
                moveCount := e.state.moveCount + 1,
                isComplete := true }
            else
              { e.state with
                vehiclePositions := setPos e.state.vehiclePositions id np,
                moveCount := e.state.moveCount + 1 }),
         moveHistory := e.moveHistory ++ [⟨id, np.row, np.col⟩],
         notifications := e.notifications + 1 }, true) := by
  have h2 : ¬ ((e.state.vehiclePositions id).row = np.row ∧
      (e.state.vehiclePositions id).col = np.col) := by
    intro hc
    refine hnp ?_
    ext
    · exact hc.1.symm
    · exact hc.2.symm
  simp [moveVehicle, hcm, h2]

lemma moveVehicle_puzzle_eq (e : Engine) (id : String) (np : Position) :
    ((moveVehicle e id np).1).state.puzzle = e.state.puzzle := by
  by_cases hcm : canMove e.state id np = true
  · by_cases hnp : np = e.state.vehiclePositions id
    · rw [moveVehicle_of_noop hnp]
    · rw [moveVehicle_of_success hcm hnp]
      dsimp only
      split <;> rfl
  · rw [moveVehicle_of_not_canMove (by simpa using hcm)]

/-! ### C4: the win predicate -/

/-- C4: `checkWin` is true exactly when the specification's win
predicate holds: the player's leading edge coincides with the exit cell
in each of the four orientation/direction cases, and every other
combination is false at every position. -/
theorem checkWin_iff_winPredicateSpec (s : GameState) :
    checkWin s = true ↔ winPredicateSpec s := by
  cases h1 : s.puzzle.playerCar.orientation <;>
    cases h2 : s.puzzle.exit.direction <;>
      simp [checkWin, winPredicateSpec, h1, h2]

/-! ### C6: a rejected move mutates nothing -/

/-- C6: whenever `moveVehicle` returns false — exactly when `canMove`
fails or the target equals the vehicle's current position — the engine
is returned unchanged: positions, move counter, move history, completion
flag and the observer-notification counter all keep their previous
values, so no observer is notified. -/
theorem moveVehicle_reject_no_mutation (e : Engine) (id : String) (np : Position) :
    ((moveVehicle e id np).2 = false → (moveVehicle e id np).1 = e) ∧
    ((moveVehicle e id np).2 = false ↔
      (canMove e.state id np = false ∨ np = e.state.vehiclePositions id)) := by
  by_cases hcm : canMove e.state id np = true
  · by_cases hnp : np = e.state.vehiclePositions id
    · rw [moveVehicle_of_noop hnp]
      exact ⟨fun _ => rfl, iff_of_true rfl (Or.inr hnp)⟩
    · rw [moveVehicle_of_success hcm hnp]
      refine ⟨fun h => Bool.noConfusion h, ?_⟩
      constructor
      · intro h; exact Bool.noConfusion h
      · rintro (h | h)
        · rw [hcm] at h; exact Bool.noConfusion h
        · exact absurd h hnp
  · have hcm' : canMove e.state id np = false := by simpa using hcm
    rw [moveVehicle_of_not_canMove hcm']
    exact ⟨fun _ => rfl, iff_of_true rfl (Or.inl hcm')⟩

/-- Witness for C6 at a concrete input: moving the sample player to the
out-of-bounds anchor (1,2) is rejected and the engine is unchanged. -/
theorem moveVehicle_reject_no_mutation_witness :
    (moveVehicle (mkEngine samplePuzzle) "player" ⟨1, 2⟩).1 = mkEngine samplePuzzle :=
  (moveVehicle_reject_no_mutation (mkEngine samplePuzzle) "player" ⟨1, 2⟩).1 (by decide)

/-! ### C10: the completion flag is sticky until reset -/

/-- C10: once an engine's completion flag is true, it stays true after
any further sequence of `moveVehicle` calls (the flag is only ever set,
never re-evaluated to false), and `reset` is the operation that returns
it to false. -/
theorem isComplete_sticky (e : Engine) (hc : e.state.isComplete = true) :
    (∀ l, (applyMoveList e l).state.isComplete = true) ∧
      (∀ e2 : Engine, (reset e2).state.isComplete = false) := by
  have step : ∀ (e1 : Engine) (id : String) (np : Position),
      e1.state.isComplete = true → ((moveVehicle e1 id np).1).state.isComplete = true := by
    intro e1 id np h
    by_cases hcm : canMove e1.state id np = true
    · by_cases hnp : np = e1.state.vehiclePositions id
      · rw [moveVehicle_of_noop hnp]; exact h
      · rw [moveVehicle_of_success hcm hnp]
        dsimp only
        split
        · rfl
        · exact h
    · rw [moveVehicle_of_not_canMove (by simpa using hcm)]; exact h
  refine ⟨?_, fun e2 => rfl⟩
  intro l
  induction l generalizing e with
  | nil => exact hc
  | cons m rest ih => exact ih _ (step e m.1 m.2 hc)

/-- Witness for C10: the sample engine is complete after the winning
move; it stays complete after a further move that takes the player off
the exit, and reset clears the flag. -/
theorem isComplete_sticky_witness :
    sampleWinEngine.state.isComplete = true ∧
    (applyMoveList sampleWinEngine [("player", ⟨1, 0⟩)]).state.isComplete = true ∧
    (reset sampleWinEngine).state.isComplete = false :=
  ⟨by decide, (isComplete_sticky sampleWinEngine (by decide)).1 [("player", ⟨1, 0⟩)],
    (isComplete_sticky sampleWinEngine (by decide)).2 sampleWinEngine⟩

/-! ### Characterizations of `canMove` and the invariant -/

lemma canMove_eq_true_iff (s : GameState) (id : String) (np : Position) :
    canMove s id np = true ↔
      ∃ v, getVehicle s id = some v ∧
        (v.orientation = Orientation.horizontal → np.row = (s.vehiclePositions id).row) ∧
        (v.orientation = Orientation.vertical → np.col = (s.vehiclePositions id).col) ∧
        (∀ c ∈ vehicleCells v np, inBounds s.puzzle.gridSize c = true) ∧
        (∀ c ∈ vehicleCells v np, c ∉ occupiedCellsList s id) := by
  cases hgv : getVehicle s id with
  | none => simp [canMove, hgv]
  | some v =>
    simp only [canMove, hgv]
    by_cases h1 : v.orientation = Orientation.horizontal ∧
        np.row ≠ (s.vehiclePositions id).row
    · rw [if_pos h1]
      refine iff_of_false (by simp) ?_
      rintro ⟨v2, hv2, hH, _, _, _⟩
      obtain rfl : v2 = v := by
        injection hv2 with h
        exact h.symm
      exact h1.2 (hH h1.1)
    · rw [if_neg h1]
      by_cases h2 : v.orientation = Orientation.vertical ∧
          np.col ≠ (s.vehiclePositions id).col
      · rw [if_pos h2]
        refine iff_of_false (by simp) ?_
        rintro ⟨v2, hv2, _, hV, _, _⟩
        obtain rfl : v2 = v := by
          injection hv2 with h
          exact h.symm
        exact h2.2 (hV h2.1)
      · rw [if_neg h2]
        by_cases h3 : ((vehicleCells v np).all (fun c => inBounds s.puzzle.gridSize c)) = true
        · rw [if_neg (not_not.mpr h3)]
          by_cases h4 : ((vehicleCells v np).any
              (fun c => hasCell (occupiedCellsList s id) c)) = true
          · rw [if_pos h4]
            refine iff_of_false (by simp) ?_
            rintro ⟨v2, hv2, _, _, _, hO⟩
            obtain rfl : v2 = v := by
              injection hv2 with h
              exact h.symm
            rw [List.any_eq_true] at h4
            obtain ⟨c, hc, hcc⟩ := h4
            exact hO c hc ((hasCell_iff _ _).mp hcc)
          · rw [if_neg h4]
            refine iff_of_true rfl ?_
            refine ⟨v, rfl, ?_, ?_, ?_, ?_⟩
            · intro hor
              by_contra hne
              exact h1 ⟨hor, hne⟩
            · intro hver
              by_contra hne
              exact h2 ⟨hver, hne⟩
            · intro c hc
              exact List.all_eq_true.mp h3 c hc
            · intro c hc hmem
              exact h4 (List.any_eq_true.mpr ⟨c, hc, (hasCell_iff _ _).mpr hmem⟩)
        · rw [if_pos h3]
          refine iff_of_false (by simp) ?_
          rintro ⟨v2, hv2, _, _, hB, _⟩
          obtain rfl : v2 = v := by
            injection hv2 with h
            exact h.symm
          exact h3 (List.all_eq_true.mpr (fun c hc => hB c hc))

lemma invariantB_iff (s : GameState) :
    invariantB s = true ↔
      (∀ v ∈ allVehicles s.puzzle, ∀ c ∈ entityCells s v,
          inBounds s.puzzle.gridSize c = true) ∧
      List.Pairwise (fun v w => ∀ c ∈ entityCells s v, c ∉ entityCells s w)
        (allVehicles s.puzzle) ∧
      (∀ v ∈ allVehicles s.puzzle, ∀ c ∈ entityCells s v, c ∉ obstacleCellsOf s.puzzle) := by
  unfold invariantB
  rw [Bool.and_eq_true, Bool.and_eq_true, pairwiseB_iff]
  rw [List.Pairwise.iff (fun a b => cellsDisjointB_iff (entityCells s a) (entityCells s b))]
  simp only [List.all_eq_true, cellsDisjointB_iff]
  tauto

lemma lengthsOkB_iff (p : Puzzle) :
    lengthsOkB p = true ↔ ∀ v ∈ allVehicles p, 1 ≤ v.length := by
  simp [lengthsOkB, List.all_eq_true]

lemma mem_vehicleCells_iff (v : Vehicle) (pos c : Position) :
    c ∈ vehicleCells v pos ↔ ∃ i : Nat, i < v.length ∧
      c = ⟨if v.orientation = Orientation.vertical then pos.row + (i : Int) else pos.row,
           if v.orientation = Orientation.horizontal then pos.col + (i : Int) else pos.col⟩ := by
  unfold vehicleCells
  constructor
  · intro hc
    obtain ⟨i, hi, heq⟩ := List.mem_map.mp hc
    exact ⟨i, List.mem_range.mp hi, heq.symm⟩
  · rintro ⟨i, hi, rfl⟩
    exact List.mem_map_of_mem _ (List.mem_range.mpr hi)

lemma anchor_mem_vehicleCells (v : Vehicle) (pos : Position) (h : 1 ≤ v.length) :
    pos ∈ vehicleCells v pos := by
  rw [mem_vehicleCells_iff]
  refine ⟨0, by omega, ?_⟩
  cases hor : v.orientation <;> simp [hor]

lemma ids_distinct_of_invariant {s : GameState}
    (hL : lengthsOkB s.puzzle = true) (hInv : invariantB s = true) :
    List.Pairwise (fun v w : Vehicle => v.id ≠ w.id) (allVehicles s.puzzle) := by
  have hpw := ((invariantB_iff s).mp hInv).2.1
  have hlen := (lengthsOkB_iff s.puzzle).mp hL
  refine List.Pairwise.imp_of_mem ?_ hpw
  intro v w hv hw hdisj hid
  have hpos : s.vehiclePositions v.id = s.vehiclePositions w.id := by rw [hid]
  have hv0 : s.vehiclePositions v.id ∈ entityCells s v :=
    anchor_mem_vehicleCells v _ (hlen v hv)
  have hw0 : s.vehiclePositions v.id ∈ entityCells s w := by
    rw [entityCells, ← hpos]
    exact anchor_mem_vehicleCells w _ (hlen w hw)
  exact hdisj _ hv0 hw0

lemma disjoint_symm (s : GameState) :
    Symmetric (fun a b : Vehicle => ∀ c ∈ entityCells s a, c ∉ entityCells s b) := by
  intro a b h c hcb hca
  exact h c hca hcb

lemma getVehicle_unique {s : GameState} {id : String} {v : Vehicle}
    (hgv : getVehicle s id = some v)
    (hdist : List.Pairwise (fun a b : Vehicle => a.id ≠ b.id) (allVehicles s.puzzle)) :
    ∀ w ∈ allVehicles s.puzzle, w.id = id → w = v := by
  intro w hw hwid
  obtain ⟨hvmem, hvid⟩ := getVehicle_mem hgv
  by_contra hne
  have hsym : Symmetric (fun a b : Vehicle => a.id ≠ b.id) := by
    intro a b h he
    exact h he.symm
  exact hdist.forall hsym hw hvmem hne (hwid.trans hvid.symm)

/-- A vehicle whose current placement satisfies the invariants may stay
put as far as `canMove` is concerned: its own cells are excluded from
the occupancy set, so the no-op target passes every check. -/
lemma canMove_self {s : GameState} {id : String} {v : Vehicle}
    (hgv : getVehicle s id = some v) (hInv : invariantB s = true) :
    canMove s id (s.vehiclePositions id) = true := by
  obtain ⟨hb, hpw, hobs⟩ := (invariantB_iff s).mp hInv
  obtain ⟨hvmem, hvid⟩ := getVehicle_mem hgv
  refine (canMove_eq_true_iff s id _).mpr ⟨v, hgv, fun _ => rfl, fun _ => rfl, ?_, ?_⟩
  · intro c hc
    have hcv : c ∈ entityCells s v := by rw [entityCells, hvid]; exact hc
    exact hb v hvmem c hcv
  · intro c hc hocc
    have hcv : c ∈ entityCells s v := by rw [entityCells, hvid]; exact hc
    rcases mem_occupiedCellsList.mp hocc with ⟨w, hw, hwid, hcw⟩ | hco
    · have hvw : v ≠ w := fun he => hwid (by rw [← he, hvid])
      exact hpw.forall (disjoint_symm s) hvmem hw hvw c hcv hcw
    · exact hobs v hvmem c hcv hco

/-! ### C9: `canMove` on a no-op target (corrected) -/

/-- Counterexample to C9 as stated: in the initial state of the sample
template the player exists and sits at (1,0), yet `canMove` on that very
position returns true — the occupancy set excludes the moving vehicle's
own cells, so a no-op target passes every check.  Only `moveVehicle`
rejects the no-op. -/
theorem canMove_noop_counterexample :
    getVehicle (initState samplePuzzle) "player" = some samplePuzzle.playerCar ∧
    (initState samplePuzzle).vehiclePositions "player" = ⟨1, 0⟩ ∧
    canMove (initState samplePuzzle) "player" ⟨1, 0⟩ = true := by
  refine ⟨by decide, by decide, by decide⟩

/-- C9 amended: for every existing vehicle in a state satisfying the
placement invariants, `canMove` returns true (not false) on the target
equal to the vehicle's current position; the rejection of a no-op move
is performed by `moveVehicle` alone. -/
theorem canMove_noop_target (s : GameState) (id : String) (v : Vehicle)
    (hv : getVehicle s id = some v) (hInv : invariantB s = true) :
    canMove s id (s.vehiclePositions id) = true :=
  canMove_self hv hInv

/-- Witness for the amended C9 at the sample template's initial state. -/
theorem canMove_noop_target_witness :
    canMove (initState samplePuzzle) "player"
      ((initState samplePuzzle).vehiclePositions "player") = true :=
  canMove_noop_target (initState samplePuzzle) "player" samplePuzzle.playerCar
    (by decide) (by decide)

/-! ### C1: the placement invariants are preserved -/

lemma entityCells_setPos (s : GameState) (id : String) (np : Position) (w : Vehicle) :
    entityCells { s with vehiclePositions := setPos s.vehiclePositions id np } w
      = (if w.id = id then vehicleCells w np else entityCells s w) := by
  unfold entityCells setPos
  dsimp only
  split
  · rfl
  · rfl

lemma invariantB_congr (s t : GameState) (hp : t.puzzle = s.puzzle)
    (hv : t.vehiclePositions = s.vehiclePositions) : invariantB t = invariantB s := by
  simp only [invariantB, entityCells, obstacleCellsOf, allVehicles, hp, hv]

lemma invariant_after_set {s : GameState} {id : String} {np : Position}
    (hL : lengthsOkB s.puzzle = true) (hInv : invariantB s = true)
    (hcm : canMove s id np = true) :
    invariantB { s with vehiclePositions := setPos s.vehiclePositions id np } = true := by
  obtain ⟨hb, hpw, hobs⟩ := (invariantB_iff s).mp hInv
  have hdist := ids_distinct_of_invariant hL hInv
  obtain ⟨v, hgv, hH, hV, hbnd, hocc⟩ := (canMove_eq_true_iff s id np).mp hcm
  obtain ⟨hvmem, hvid⟩ := getVehicle_mem hgv
  have huniq := getVehicle_unique hgv hdist
  have hlen := (lengthsOkB_iff s.puzzle).mp hL
  refine (invariantB_iff _).mpr ⟨?_, ?_, ?_⟩
  · intro w hw c hc
    rw [entityCells_setPos] at hc
    by_cases hwid : w.id = id
    · rw [if_pos hwid] at hc
      obtain rfl : w = v := huniq w hw hwid
      exact hbnd c hc
    · rw [if_neg hwid] at hc
      exact hb w hw c hc
  · refine List.Pairwise.imp_of_mem ?_ hpw
    intro a b ha hbm hdisj c hca hcb
    rw [entityCells_setPos] at hca hcb
    by_cases haid : a.id = id <;> by_cases hbid : b.id = id
    · have hav : a = v := huniq a ha haid
      have hbv : b = v := huniq b hbm hbid
      have hab : a = b := hav.trans hbv.symm
      have h1 : s.vehiclePositions a.id ∈ entityCells s a :=
        anchor_mem_vehicleCells a _ (hlen a ha)
      exact hdisj _ h1 (hab ▸ h1)
    · obtain rfl : a = v := huniq a ha haid
      rw [if_pos haid] at hca
      rw [if_neg hbid] at hcb
      exact hocc c hca (mem_occupiedCellsList.mpr (Or.inl ⟨b, hbm, hbid, hcb⟩))
    · obtain rfl : b = v := huniq b hbm hbid
      rw [if_neg haid] at hca
      rw [if_pos hbid] at hcb
      exact hocc c hcb (mem_occupiedCellsList.mpr (Or.inl ⟨a, ha, haid, hca⟩))
    · rw [if_neg haid] at hca
      rw [if_neg hbid] at hcb
      exact hdisj c hca hcb
  · intro w hw c hc hco
    rw [entityCells_setPos] at hc
    by_cases hwid : w.id = id
    · obtain rfl : w = v := huniq w hw hwid
      rw [if_pos hwid] at hc
      exact hocc c hc (mem_occupiedCellsList.mpr (Or.inr hco))
    · rw [if_neg hwid] at hc
      exact hobs w hw c hc hco

lemma invariantB_moveVehicle {e : Engine} (hL : lengthsOkB e.state.puzzle = true)
    (hInv : invariantB e.state = true) (id : String) (np : Position) :
    invariantB ((moveVehicle e id np).1).state = true := by
  by_cases hcm : canMove e.state id np = true
  · by_cases hnp : np = e.state.vehiclePositions id
    · rw [moveVehicle_of_noop hnp]
      exact hInv
    · rw [moveVehicle_of_success hcm hnp]
      have base := invariant_after_set hL hInv hcm
      dsimp only
      split
      · exact (invariantB_congr _ _ rfl rfl).trans base
      · exact (invariantB_congr _ _ rfl rfl).trans base
  · rw [moveVehicle_of_not_canMove (by simpa using hcm)]
    exact hInv

/-- C1: for every puzzle template of the data model (all vehicle lengths
at least 1, as section 3 requires) whose initial placement satisfies the
placement invariants, after any sequence of `moveVehicle` and `reset`
calls on an engine constructed from it, every vehicle's occupied cells
still lie within the grid and no two entities' occupied cells intersect
(vehicle to vehicle and vehicle to obstacle). -/
theorem engine_invariants_preserved (p : Puzzle) (ops : List EngineOp)
    (hL : lengthsOkB p = true) (hInit : invariantB (initState p) = true) :
    invariantB ((applyOps (mkEngine p) ops).state) = true := by
  suffices h : ∀ e : Engine, e.state.puzzle = p → invariantB e.state = true →
      invariantB ((applyOps e ops).state) = true ∧ (applyOps e ops).state.puzzle = p by
    exact (h (mkEngine p) rfl hInit).1
  induction ops with
  | nil =>
    intro e hp hi
    exact ⟨hi, hp⟩
  | cons op rest ih =>
    intro e hp hi
    have hstep : invariantB (applyOp e op).state = true ∧ (applyOp e op).state.puzzle = p := by
      cases op with
      | move id target =>
        refine ⟨invariantB_moveVehicle ?_ hi id target, ?_⟩
        · rw [hp]
          exact hL
        · rw [show (applyOp e (EngineOp.move id target)) = (moveVehicle e id target).1 from rfl,
            moveVehicle_puzzle_eq]
          exact hp
      | reset =>
        refine ⟨?_, ?_⟩
        · show invariantB (initState e.state.puzzle) = true
          rw [hp]
          exact hInit
        · show (initState e.state.puzzle).puzzle = p
          exact hp
    exact ih (applyOp e op) hstep.2 hstep.1

/-- Witness for C1: the sample template satisfies the hypotheses, and
the invariants hold after a concrete move, a reset and another move. -/
theorem engine_invariants_preserved_witness :
    invariantB ((applyOps (mkEngine samplePuzzle)
      [EngineOp.move "player" ⟨1, 1⟩, EngineOp.reset,
       EngineOp.move "player" ⟨1, 1⟩]).state) = true :=
  engine_invariants_preserved samplePuzzle
    [EngineOp.move "player" ⟨1, 1⟩, EngineOp.reset, EngineOp.move "player" ⟨1, 1⟩]
    (by decide) (by decide)

/-! ### C5: the slide range -/

lemma slideBackLoop_le (s : GameState) (id : String) (isH : Bool) (cur : Position) :
    ∀ (f : Nat) (m : Int), slideBackLoop s id isH cur f m ≤ m := by
  intro f
  induction f with
  | zero =>
    intro m
    simp [slideBackLoop]
  | succ f ih =>
    intro m
    simp only [slideBackLoop]
    by_cases h : 0 < m ∧ canMove s id
        (if isH then (⟨cur.row, m - 1⟩ : Position) else ⟨m - 1, cur.col⟩) = true
    · rw [if_pos h]
      exact le_trans (ih (m - 1)) (by omega)
    · rw [if_neg h]

lemma slideBackLoop_reach (s : GameState) (id : String) (isH : Bool) (cur : Position) :
    ∀ (f : Nat) (m k : Int), slideBackLoop s id isH cur f m ≤ k → k < m →
      canMove s id (if isH then (⟨cur.row, k⟩ : Position) else ⟨k, cur.col⟩) = true := by
  intro f
  induction f with
  | zero =>
    intro m k h1 h2
    simp only [slideBackLoop] at h1
    exact absurd h2 (not_lt.mpr h1)
  | succ f ih =>
    intro m k h1 h2
    simp only [slideBackLoop] at h1
    by_cases h : 0 < m ∧ canMove s id
        (if isH then (⟨cur.row, m - 1⟩ : Position) else ⟨m - 1, cur.col⟩) = true
    · rw [if_pos h] at h1
      by_cases hk : k < m - 1
      · exact ih (m - 1) k h1 hk
      · have hkm : k = m - 1 := by omega
        rw [hkm]
        exact h.2
    · rw [if_neg h] at h1
      exact absurd h2 (not_lt.mpr h1)

lemma slideBackLoop_stop (s : GameState) (id : String) (isH : Bool) (cur : Position)
    (f : Nat) (m : Int)
    (h : canMove s id (if isH then (⟨cur.row, m - 1⟩ : Position) else ⟨m - 1, cur.col⟩) = false) :
    slideBackLoop s id isH cur f m = m := by
  cases f with
  | zero => simp [slideBackLoop]
  | succ f =>
    simp only [slideBackLoop]
    rw [if_neg]
    rintro ⟨-, h2⟩
    rw [h] at h2
    exact Bool.noConfusion h2

lemma slideFwdLoop_ge (s : GameState) (id : String) (isH : Bool) (cur : Position)
    (length : Nat) (limit : Int) :
    ∀ (f : Nat) (m : Int), m ≤ slideFwdLoop s id isH cur length limit f m := by
  intro f
  induction f with
  | zero =>
    intro m
    simp [slideFwdLoop]
  | succ f ih =>
    intro m
    simp only [slideFwdLoop]
    by_cases h : m + (length : Int) < limit ∧ canMove s id
        (if isH then (⟨cur.row, m + 1⟩ : Position) else ⟨m + 1, cur.col⟩) = true
    · rw [if_pos h]
      exact le_trans (by omega) (ih (m + 1))
    · rw [if_neg h]

lemma slideFwdLoop_reach (s : GameState) (id : String) (isH : Bool) (cur : Position)
    (length : Nat) (limit : Int) :
    ∀ (f : Nat) (m k : Int), m < k → k ≤ slideFwdLoop s id isH cur length limit f m →
      canMove s id (if isH then (⟨cur.row, k⟩ : Position) else ⟨k, cur.col⟩) = true := by
  intro f
  induction f with
  | zero =>
    intro m k h1 h2
    simp only [slideFwdLoop] at h2
    exact absurd h1 (not_lt.mpr h2)
  | succ f ih =>
    intro m k h1 h2
    simp only [slideFwdLoop] at h2
    by_cases h : m + (length : Int) < limit ∧ canMove s id
        (if isH then (⟨cur.row, m + 1⟩ : Position) else ⟨m + 1, cur.col⟩) = true
    · rw [if_pos h] at h2
      by_cases hk : m + 1 < k
      · exact ih (m + 1) k hk h2
      · have hkm : k = m + 1 := by omega
        rw [hkm]
        exact h.2
    · rw [if_neg h] at h2
      exact absurd h1 (not_lt.mpr h2)

lemma slideFwdLoop_stop (s : GameState) (id : String) (isH : Bool) (cur : Position)
    (length : Nat) (limit : Int) (f : Nat) (m : Int)
    (h : canMove s id (if isH then (⟨cur.row, m + 1⟩ : Position) else ⟨m + 1, cur.col⟩) = false) :
    slideFwdLoop s id isH cur length limit f m = m := by
  cases f with
  | zero => simp [slideFwdLoop]
  | succ f =>
    simp only [slideFwdLoop]
    rw [if_neg]
    rintro ⟨-, h2⟩
    rw [h] at h2
    exact Bool.noConfusion h2

/-- C5: for every existing vehicle in a state satisfying the placement
invariants, `getSlideRange` returns an interval around the current
along-axis anchor coordinate in which every coordinate — including the
current one — is individually accepted by `canMove`, and the interval
degenerates to the current coordinate when the vehicle can move one cell
in neither direction. -/
theorem getSlideRange_spec (s : GameState) (id : String) (v : Vehicle)
    (hv : getVehicle s id = some v) (hInv : invariantB s = true) :
    (getSlideRange s id).1 ≤ alongCoord v (s.vehiclePositions id) ∧
    alongCoord v (s.vehiclePositions id) ≤ (getSlideRange s id).2 ∧
    (∀ k : Int, (getSlideRange s id).1 ≤ k → k ≤ (getSlideRange s id).2 →
      canMove s id (anchorAt v (s.vehiclePositions id) k) = true) ∧
    ((canMove s id (anchorAt v (s.vehiclePositions id)
          (alongCoord v (s.vehiclePositions id) - 1)) = false ∧
      canMove s id (anchorAt v (s.vehiclePositions id)
          (alongCoord v (s.vehiclePositions id) + 1)) = false) →
      getSlideRange s id = (alongCoord v (s.vehiclePositions id),
        alongCoord v (s.vehiclePositions id))) := by
  have hself : canMove s id (s.vehiclePositions id) = true := canMove_self hv hInv
  cases hOr : v.orientation with
  | horizontal =>
    have halong : alongCoord v (s.vehiclePositions id) = (s.vehiclePositions id).col := by
      simp [alongCoord, hOr]
    have hanchor : ∀ k : Int, anchorAt v (s.vehiclePositions id) k
        = ⟨(s.vehiclePositions id).row, k⟩ := by
      intro k
      simp [anchorAt, hOr]
    have hrange : getSlideRange s id =
        (slideBackLoop s id true (s.vehiclePositions id)
          (s.vehiclePositions id).col.toNat (s.vehiclePositions id).col,
         slideFwdLoop s id true (s.vehiclePositions id) v.length s.puzzle.gridSize.cols
          (s.puzzle.gridSize.cols - (s.vehiclePositions id).col - (v.length : Int)).toNat
          (s.vehiclePositions id).col) := by
      simp [getSlideRange, hv, hOr]
    rw [hrange, halong]
    simp only [hanchor]
    refine ⟨slideBackLoop_le s id true _ _ _, slideFwdLoop_ge s id true _ _ _ _ _, ?_, ?_⟩
    · intro k h1 h2
      rcases lt_trichotomy k (s.vehiclePositions id).col with hk | hk | hk
      · have hres := slideBackLoop_reach s id true (s.vehiclePositions id)
          (s.vehiclePositions id).col.toNat (s.vehiclePositions id).col k h1 hk
        simpa using hres
      · rw [hk]
        exact hself
      · have hres := slideFwdLoop_reach s id true (s.vehiclePositions id) v.length
          s.puzzle.gridSize.cols
          (s.puzzle.gridSize.cols - (s.vehiclePositions id).col - (v.length : Int)).toNat
          (s.vehiclePositions id).col k hk h2
        simpa using hres
    · rintro ⟨hback, hfwd⟩
      rw [slideBackLoop_stop s id true _ _ _ (by simpa using hback),
        slideFwdLoop_stop s id true _ _ _ _ _ (by simpa using hfwd)]
  | vertical =>
    have halong : alongCoord v (s.vehiclePositions id) = (s.vehiclePositions id).row := by
      simp [alongCoord, hOr]
    have hanchor : ∀ k : Int, anchorAt v (s.vehiclePositions id) k
        = ⟨k, (s.vehiclePositions id).col⟩ := by
      intro k
      simp [anchorAt, hOr]
    have hrange : getSlideRange s id =
        (slideBackLoop s id false (s.vehiclePositions id)
          (s.vehiclePositions id).row.toNat (s.vehiclePositions id).row,
         slideFwdLoop s id false (s.vehiclePositions id) v.length s.puzzle.gridSize.rows
          (s.puzzle.gridSize.rows - (s.vehiclePositions id).row - (v.length : Int)).toNat
          (s.vehiclePositions id).row) := by
      simp [getSlideRange, hv, hOr]
    rw [hrange, halong]
    simp only [hanchor]
    refine ⟨slideBackLoop_le s id false _ _ _, slideFwdLoop_ge s id false _ _ _ _ _, ?_, ?_⟩
    · intro k h1 h2
      rcases lt_trichotomy k (s.vehiclePositions id).row with hk | hk | hk
      · have hres := slideBackLoop_reach s id false (s.vehiclePositions id)
          (s.vehiclePositions id).row.toNat (s.vehiclePositions id).row k h1 hk
        simpa using hres
      · rw [hk]
        exact hself
      · have hres := slideFwdLoop_reach s id false (s.vehiclePositions id) v.length
          s.puzzle.gridSize.rows
          (s.puzzle.gridSize.rows - (s.vehiclePositions id).row - (v.length : Int)).toNat
          (s.vehiclePositions id).row k hk h2
        simpa using hres
    · rintro ⟨hback, hfwd⟩
      rw [slideBackLoop_stop s id false _ _ _ (by simpa using hback),
        slideFwdLoop_stop s id false _ _ _ _ _ (by simpa using hfwd)]

/-- Witness for C5 at the sample template: the hypotheses hold and the
slide range of the player there is the concrete interval (0, 1). -/
theorem getSlideRange_spec_witness :
    getSlideRange (initState samplePuzzle) "player" = (0, 1) ∧
    canMove (initState samplePuzzle) "player"
      (anchorAt samplePuzzle.playerCar
        ((initState samplePuzzle).vehiclePositions "player") 0) = true ∧
    canMove (initState samplePuzzle) "player"
      (anchorAt samplePuzzle.playerCar
        ((initState samplePuzzle).vehiclePositions "player") 1) = true := by
  have h := getSlideRange_spec (initState samplePuzzle) "player" samplePuzzle.playerCar
    (by decide) (by decide)
  refine ⟨by decide, ?_, ?_⟩
  · exact h.2.2.1 0 (by decide) (by decide)
  · exact h.2.2.1 1 (by decide) (by decide)

/-! ### C3: the replay validator -/

lemma replayFrom_spec (e : Engine) (i : Nat) (ms : List PuzzleMove) :
    (∃ e2, runMoves e ms = some e2 ∧ replayFrom e i ms = Except.ok e2) ∨
    (∃ k m e2, ms.get? k = some m ∧ runMoves e (ms.take k) = some e2 ∧
      (moveVehicle e2 m.vehicleId ⟨m.row, m.col⟩).2 = false ∧
      replayFrom e i ms = Except.error ("Invalid move at step " ++ toString (i + k + 1))) := by
  induction ms generalizing e i with
  | nil => exact Or.inl ⟨e, rfl, rfl⟩
  | cons m rest ih =>
    by_cases hmv : (moveVehicle e m.vehicleId ⟨m.row, m.col⟩).2 = true
    · rcases ih (moveVehicle e m.vehicleId ⟨m.row, m.col⟩).1 (i + 1) with
        ⟨e2, hr, hp⟩ | ⟨k, m2, e2, hg, hr, hf, hp⟩
      · left
        refine ⟨e2, ?_, ?_⟩
        · simp [runMoves, hmv, hr]
        · simp [replayFrom, hmv, hp]
      · right
        refine ⟨k + 1, m2, e2, by simpa using hg, ?_, hf, ?_⟩
        · simp only [List.take_succ_cons, runMoves, hmv, if_pos]
          exact hr
        · simp only [replayFrom, hmv, if_pos]
          rw [hp]
          have harith : i + 1 + k + 1 = i + (k + 1) + 1 := by omega
          rw [harith]
    · right
      refine ⟨0, m, e, rfl, rfl, by simpa using hmv, ?_⟩
      simp [replayFrom, hmv]

/-- C3: `validatePuzzle` returns exactly one of the four outcomes — the
no-trace error for an absent or empty trace; the 1-based index of the
first trace move rejected by `moveVehicle` (replay is fail-fast: all
earlier moves succeeded and the result is fixed by that prefix); the
does-not-reach-win error when every move applies but the final
completion flag is false; and otherwise valid with par equal to the
trace length.  `validatePuzzle` is a pure function of the template, so
repeated calls yield identical results by definition. -/
theorem validatePuzzle_cases (p : Puzzle) :
    (p.validation = none →
      validatePuzzle p =
        { isValid := false, par := none, error := some ("No validation provided") }) ∧
    (p.validation = some [] →
      validatePuzzle p =
        { isValid := false, par := none, error := some ("No validation provided") }) ∧
    (∀ ms, p.validation = some ms → ms ≠ [] →
      ((∃ k m e2, ms.get? k = some m ∧ runMoves (mkEngine p) (ms.take k) = some e2 ∧
          (moveVehicle e2 m.vehicleId ⟨m.row, m.col⟩).2 = false ∧
          validatePuzzle p =
            { isValid := false, par := none,
              error := some ("Invalid move at step " ++ toString (k + 1)) }) ∨
       (∃ e2, runMoves (mkEngine p) ms = some e2 ∧ e2.state.isComplete = false ∧
          validatePuzzle p =
            { isValid := false, par := none,
              error := some ("Validation does not reach win state") }) ∨
       (∃ e2, runMoves (mkEngine p) ms = some e2 ∧ e2.state.isComplete = true ∧
          validatePuzzle p = { isValid := true, par := some ms.length, error := none }))) := by
  refine ⟨?_, ?_, ?_⟩
  · intro h
    simp [validatePuzzle, h]
  · intro h
    simp [validatePuzzle, h]
  · intro ms hms hne
    have hlen : ¬ ms.length = 0 := by simpa using hne
    rcases replayFrom_spec (mkEngine p) 0 ms with ⟨e2, hr, hp⟩ | ⟨k, m, e2, hg, hr, hf, hp⟩
    · by_cases hc : e2.state.isComplete = true
      · right; right
        exact ⟨e2, hr, hc, by simp [validatePuzzle, hms, hlen, hp, hc]⟩
      · right; left
        have hc' : e2.state.isComplete = false := by simpa using hc
        exact ⟨e2, hr, hc', by simp [validatePuzzle, hms, hlen, hp, hc']⟩
    · left
      refine ⟨k, m, e2, hg, hr, hf, ?_⟩
      have harith : (0 : Nat) + k + 1 = k + 1 := by omega
      rw [harith] at hp
      simp [validatePuzzle, hms, hlen, hp]

/-- Witness for C3 at a concrete template with no validation trace. -/
theorem validatePuzzle_cases_witness :
    validatePuzzle samplePuzzleNoTrace =
      { isValid := false, par := none, error := some ("No validation provided") } :=
  (validatePuzzle_cases samplePuzzleNoTrace).1 rfl

/-! ### C2: rotating four times is the identity -/

lemma flipOri_flipOri (o : Orientation) : flipOri (flipOri o) = o := by
  cases o <;> rfl

lemma rotateVehicle_orientation (R : Int) (g : VehicleGeom) :
    (rotateVehicle R g).orientation = flipOri g.orientation := by
  cases hg : g.orientation <;> simp [rotateVehicle, hg, flipOri]

lemma rotateVehicle_length (R : Int) (g : VehicleGeom) :
    (rotateVehicle R g).length = g.length := by
  cases hg : g.orientation <;> simp [rotateVehicle, hg]

lemma rotateVehicle_four (R C : Int) (g : VehicleGeom) :
    rotateVehicle C (rotateVehicle R (rotateVehicle C (rotateVehicle R g))) = g := by
  obtain ⟨r, c, L, ori⟩ := g
  cases ori <;> simp [rotateVehicle, rotatePos] <;> omega

lemma rotateRawVehicle_four (R C : Int) (v : RawVehicle) :
    rotateRawVehicle C (rotateRawVehicle R (rotateRawVehicle C (rotateRawVehicle R v))) = v := by
  obtain ⟨r, c, L, ori, ty, co⟩ := v
  cases ori <;> simp [rotateRawVehicle, rotateVehicle, rotatePos] <;> omega

lemma rotateRawObstacle_four (R C : Int) (o : RawObstacle) :
    rotateRawObstacle C (rotateRawObstacle R (rotateRawObstacle C (rotateRawObstacle R o))) = o := by
  obtain ⟨r, c, ty⟩ := o
  simp [rotateRawObstacle, rotatePos]

lemma map_id_of_eq {α : Type} (f : α → α) (h : ∀ a, f a = a) :
    ∀ l : List α, l.map f = l := by
  intro l
  induction l with
  | nil => rfl
  | cons x xs ih => simp [h, ih]

lemma moveEntityGeom_rotate (raw : RawPuzzle) (id : String) :
    moveEntityGeom (rotatePuzzle90CW raw) id
      = (moveEntityGeom raw id).map (fun ol => (flipOri ol.1, ol.2)) := by
  unfold moveEntityGeom
  by_cases hid : id = "player"
  · simp [hid, rotatePuzzle90CW, rotateVehicle_orientation, rotateVehicle_length]
  · simp only [hid, if_neg, if_false]
    cases hp : jsParseInt (removeFirstOcc ("vehicle-".data) id.data) with
    | none => simp
    | some i =>
      by_cases hneg : i < 0
      · simp [hneg]
      · simp only [hneg, if_false]
        show ((rotatePuzzle90CW raw).vehicles.get? i.toNat).map _ = _
        have hvs : (rotatePuzzle90CW raw).vehicles.get? i.toNat
            = (raw.vehicles.get? i.toNat).map (rotateRawVehicle raw.gridSize.rows) := by
          show ((raw.vehicles.map _).get? i.toNat) = _
          rw [List.get?_eq_getElem?, List.get?_eq_getElem?, List.getElem?_map]
        rw [hvs]
        cases raw.vehicles.get? i.toNat with
        | none => simp
        | some v =>
          simp [rotateRawVehicle, rotateVehicle_orientation, rotateVehicle_length]

lemma rotateMove_four (raw : RawPuzzle) (m : PuzzleMove) :
    rotateMove (rotatePuzzle90CW (rotatePuzzle90CW (rotatePuzzle90CW raw)))
        raw.gridSize.cols
      (rotateMove (rotatePuzzle90CW (rotatePuzzle90CW raw)) raw.gridSize.rows
        (rotateMove (rotatePuzzle90CW raw) raw.gridSize.cols
          (rotateMove raw raw.gridSize.rows m))) = m := by
  have h1 := moveEntityGeom_rotate raw m.vehicleId
  have h2 := moveEntityGeom_rotate (rotatePuzzle90CW raw) m.vehicleId
  have h3 := moveEntityGeom_rotate (rotatePuzzle90CW (rotatePuzzle90CW raw)) m.vehicleId
  cases hinfo : moveEntityGeom raw m.vehicleId with
  | none =>
    rw [hinfo] at h1
    rw [h1] at h2
    rw [h2] at h3
    simp only [Option.map_none'] at h1 h2 h3
    obtain ⟨mid, mr, mc⟩ := m
    simp [rotateMove, hinfo, h1, h2, h3, rotateVehicle, rotatePos]
  | some ol =>
    obtain ⟨ori, len⟩ := ol
    rw [hinfo] at h1
    rw [h1] at h2
    rw [h2] at h3
    simp only [Option.map_some', flipOri_flipOri] at h1 h2 h3
    obtain ⟨mid, mr, mc⟩ := m
    cases ori <;>
      simp [rotateMove, hinfo, h1, h2, h3, rotateVehicle, rotatePos, flipOri] <;>
        omega

/-- C2: applying `rotatePuzzle90CW` four times to any raw puzzle
template reproduces it exactly: grid size, exit cell, every vehicle's
anchor, orientation, length, color and type, every obstacle, and the
validation trace move for move. -/
theorem rotatePuzzle90CW_four (raw : RawPuzzle) :
    rotatePuzzle90CW (rotatePuzzle90CW (rotatePuzzle90CW (rotatePuzzle90CW raw))) = raw := by
  obtain ⟨name, diff, ⟨R, C⟩, ⟨er, ec⟩, pc, vehicles, obstacles, validation⟩ := raw
  simp only [rotatePuzzle90CW, RawPuzzle.mk.injEq]
  refine ⟨trivial, trivial, trivial, ?_, rotateVehicle_four R C pc, ?_, ?_, ?_⟩
  · simp [rotatePos]
  · rw [List.map_map, List.map_map, List.map_map]
    exact map_id_of_eq _ (fun v => rotateRawVehicle_four R C v) vehicles
  · rw [List.map_map, List.map_map, List.map_map]
    exact map_id_of_eq _ (fun o => rotateRawObstacle_four R C o) obstacles
  · cases validation with
    | none => rfl
    | some ms =>
      simp only [Option.map_some']
      rw [List.map_map, List.map_map, List.map_map]
      exact congrArg some (map_id_of_eq _
        (fun m => rotateMove_four ⟨name, diff, ⟨R, C⟩, ⟨er, ec⟩, pc,
          vehicles, obstacles, some ms⟩ m) ms)

/-! ### C7: the rotation maps occupied cells through the cell map -/

lemma mem_rawVehicleCells_iff (g : VehicleGeom) (c : Position) :
    c ∈ rawVehicleCells g ↔ ∃ i : Nat, i < g.length ∧
      c = ⟨if g.orientation = Orientation.vertical then g.row + (i : Int) else g.row,
           if g.orientation = Orientation.horizontal then g.col + (i : Int) else g.col⟩ := by
  unfold rawVehicleCells
  constructor
  · intro hc
    obtain ⟨i, hi, heq⟩ := List.mem_map.mp hc
    exact ⟨i, List.mem_range.mp hi, heq.symm⟩
  · rintro ⟨i, hi, rfl⟩
    exact List.mem_map_of_mem _ (List.mem_range.mpr hi)

/-- C7: for every vehicle geometry, `rotatePuzzle90CW` maps the set of
occupied cells exactly through `(r, c) ↦ (c, R - 1 - r)` where `R` is
the original row count: an originally horizontal vehicle becomes
vertical anchored at the image of its anchor, an originally vertical one
becomes horizontal anchored at the image of its bottom cell, length is
preserved, this very transform is applied to the template's player car
and vehicle list, and every validation waypoint is transformed by the
same anchor rule using the entity's original orientation and length. -/
theorem rotate_cells_spec (raw : RawPuzzle) :
    (∀ (g : VehicleGeom) (p : Position),
        p ∈ rawVehicleCells (rotateVehicle raw.gridSize.rows g) ↔
          ∃ q ∈ rawVehicleCells g, p = rotatePos raw.gridSize.rows q.row q.col) ∧
    (∀ g : VehicleGeom, (rotateVehicle raw.gridSize.rows g).length = g.length) ∧
    (∀ g : VehicleGeom, g.orientation = Orientation.horizontal →
        rotateVehicle raw.gridSize.rows g =
          ⟨(rotatePos raw.gridSize.rows g.row g.col).row,
           (rotatePos raw.gridSize.rows g.row g.col).col, g.length,
           Orientation.vertical⟩) ∧
    (∀ g : VehicleGeom, g.orientation = Orientation.vertical →
        rotateVehicle raw.gridSize.rows g =
          ⟨(rotatePos raw.gridSize.rows (g.row + (g.length : Int) - 1) g.col).row,
           (rotatePos raw.gridSize.rows (g.row + (g.length : Int) - 1) g.col).col,
           g.length, Orientation.horizontal⟩) ∧
    ((rotatePuzzle90CW raw).playerCar = rotateVehicle raw.gridSize.rows raw.playerCar ∧
     (rotatePuzzle90CW raw).vehicles
        = raw.vehicles.map (rotateRawVehicle raw.gridSize.rows)) ∧
    (∀ (m : PuzzleMove) (ori : Orientation) (len : Nat),
        moveEntityGeom raw m.vehicleId = some (ori, len) →
        rotateMove raw raw.gridSize.rows m =
          ⟨m.vehicleId, (rotateVehicle raw.gridSize.rows ⟨m.row, m.col, len, ori⟩).row,
           (rotateVehicle raw.gridSize.rows ⟨m.row, m.col, len, ori⟩).col⟩) ∧
    ((rotatePuzzle90CW raw).validation
        = raw.validation.map (fun ms => ms.map (rotateMove raw raw.gridSize.rows))) := by
  refine ⟨?_, rotateVehicle_length raw.gridSize.rows, ?_, ?_, ⟨rfl, rfl⟩, ?_, rfl⟩
  · intro g p
    cases ho : g.orientation with
    | horizontal =>
      have hrot : rotateVehicle raw.gridSize.rows g
          = ⟨g.col, raw.gridSize.rows - 1 - g.row, g.length, Orientation.vertical⟩ := by
        simp [rotateVehicle, ho, rotatePos]
      rw [hrot, mem_rawVehicleCells_iff]
      constructor
      · rintro ⟨i, hi, rfl⟩
        refine ⟨⟨g.row, g.col + (i : Int)⟩, ?_, ?_⟩
        · rw [mem_rawVehicleCells_iff]
          exact ⟨i, hi, by simp [ho]⟩
        · simp [rotatePos]
      · rintro ⟨q, hq, rfl⟩
        rw [mem_rawVehicleCells_iff] at hq
        obtain ⟨i, hi, rfl⟩ := hq
        exact ⟨i, hi, by simp [ho, rotatePos]⟩
    | vertical =>
      have hrot : rotateVehicle raw.gridSize.rows g
          = ⟨g.col, raw.gridSize.rows - 1 - (g.row + (g.length : Int) - 1), g.length,
             Orientation.horizontal⟩ := by
        simp [rotateVehicle, ho, rotatePos]
      rw [hrot, mem_rawVehicleCells_iff]
      dsimp only
      constructor
      · rintro ⟨i, hi, rfl⟩
        refine ⟨⟨g.row + ((g.length - 1 - i : Nat) : Int), g.col⟩, ?_, ?_⟩
        · rw [mem_rawVehicleCells_iff]
          exact ⟨g.length - 1 - i, by omega, by simp [ho]⟩
        · simp only [rotatePos, Position.mk.injEq]
          constructor
          · rfl
          · push_cast
            omega
      · rintro ⟨q, hq, rfl⟩
        rw [mem_rawVehicleCells_iff] at hq
        obtain ⟨i, hi, rfl⟩ := hq
        refine ⟨g.length - 1 - i, by omega, ?_⟩
        simp only [ho, rotatePos, Position.mk.injEq]
        constructor
        · simp
        · push_cast
          omega
  · intro g hg
    simp [rotateVehicle, hg, rotatePos]
  · intro g hg
    simp [rotateVehicle, hg, rotatePos]
  · intro m ori len h
    simp [rotateMove, h]

/-- Witness for C7 at the sample raw template: the rotated horizontal
player becomes the concrete vertical vehicle, and a concrete rotated
cell is the image of a concrete original cell. -/
theorem rotate_cells_spec_witness :
    rotateVehicle sampleRaw.gridSize.rows ⟨2, 0, 2, Orientation.horizontal⟩
        = ⟨0, 3, 2, Orientation.vertical⟩ ∧
    ((⟨1, 3⟩ : Position) ∈ rawVehicleCells
        (rotateVehicle sampleRaw.gridSize.rows ⟨2, 0, 2, Orientation.horizontal⟩)) := by
  have h := rotate_cells_spec sampleRaw
  constructor
  · exact (h.2.2.1 ⟨2, 0, 2, Orientation.horizontal⟩ rfl).trans (by decide)
  · exact (h.1 ⟨2, 0, 2, Orientation.horizontal⟩ ⟨1, 3⟩).mpr ⟨⟨2, 1⟩, by decide, by decide⟩

/-! ### C8: exit-direction deduction (corrected) -/

/-- Counterexample to C8 as stated: the exit (2,7) is not on the
periphery of a 5x5 grid (it is not even inside the grid), yet
`deduceExitDirection` does not throw — the source tests `col >=
cols - 1` rather than equality, so it answers `right`. -/
theorem deduceExitDirection_counterexample :
    onPeriphery ⟨2, 7⟩ ⟨5, 5⟩ = false ∧
    deduceExitDirection ⟨2, 7⟩ ⟨5, 5⟩ = Except.ok Direction.right := by
  exact ⟨by decide, rfl⟩

/-- C8 amended: hydration aborts exactly when the exit is strictly
interior along both axes (`0 < row < rows - 1` and `0 < col <
cols - 1`); in particular for every exit actually on the periphery it
succeeds and derives the direction by the stated rule (last column
gives right, else column 0 gives left, else last row gives down, else
up).  Exits outside the grid are not rejected, contrary to the claim. -/
theorem deduceExitDirection_amended (exit : Position) (g : GridSize) :
    ((∃ msg, deduceExitDirection exit g = Except.error msg) ↔
      (0 < exit.row ∧ exit.row < g.rows - 1 ∧ 0 < exit.col ∧ exit.col < g.cols - 1)) ∧
    (onPeriphery exit g = true →
      deduceExitDirection exit g = Except.ok (specExitDirection exit g)) := by
  constructor
  · unfold deduceExitDirection
    split_ifs with h1 h2 h3 h4 <;> simp <;> omega
  · intro hp
    have hb := of_decide_eq_true hp
    obtain ⟨⟨hr0, hrR, hc0, hcC⟩, hedge⟩ := hb
    unfold deduceExitDirection specExitDirection
    split_ifs <;> first | rfl | (exfalso; omega)

/-- Witness for the amended C8: the periphery exit (0,2) of a 5x5 grid
is accepted with direction up. -/
theorem deduceExitDirection_amended_witness :
    deduceExitDirection ⟨0, 2⟩ ⟨5, 5⟩ = Except.ok (specExitDirection ⟨0, 2⟩ ⟨5, 5⟩) ∧
    specExitDirection ⟨0, 2⟩ ⟨5, 5⟩ = Direction.up :=
  ⟨(deduceExitDirection_amended ⟨0, 2⟩ ⟨5, 5⟩).2 (by decide), by decide⟩

end Gridlocked

